import Mathlib

/-!
Shallow embedding of the blog/CMS backend (Express + Prisma controllers).

The relational store (Prisma models User, BlogPost, Tag, PostTag, PostLike,
Comment) is embedded as lists of rows inside a `Store` structure.  Prisma
calls are embedded as list operations with sequential semantics:
`findUnique`/`findFirst` as `List.find?`, `create` as appending a row,
`updateMany`-style updates as `List.map`, `deleteMany` as `List.filter`.
Each controller of interest is embedded as a pure function from a `Store`
(plus its request inputs) to a response value paired with the new `Store`.
External collaborators (bcrypt's hash, the agenda job queue) are passed in
as parameters: a `hash : String → String` function and a `NotifyOutcome`
flag recording whether the job submission threw.
-/

/-- A row of the Prisma `User` model. -/
structure User where
  id : Nat
  name : String
  email : String
  password : String
  profileImageUrl : String
  bio : String
  role : String
deriving Repr, DecidableEq

/-- A row of the Prisma `BlogPost` model. -/
structure BlogPost where
  id : Nat
  title : String
  slug : String
  content : String
  isDraft : Bool
  generatedByAI : Bool
  views : Nat
  likesCount : Nat
  authorId : Nat
  updatedAt : Nat
deriving Repr, DecidableEq

/-- A row of the Prisma `Tag` model (`name` carries a unique index). -/
structure Tag where
  id : Nat
  name : String
deriving Repr, DecidableEq

/-- A row of the Prisma `PostTag` join model linking posts and tags. -/
structure PostTagRow where
  postId : Nat
  tagId : Nat
deriving Repr, DecidableEq

/-- A row of the Prisma `PostLike` model (`userId_postId` unique pair). -/
structure PostLike where
  userId : Nat
  postId : Nat
deriving Repr, DecidableEq

/-- A row of the Prisma `Comment` model (`parentId` is the self reference). -/
structure CommentRow where
  id : Nat
  postId : Nat
  authorId : Nat
  content : String
  parentId : Option Nat
  createdAt : Nat
deriving Repr, DecidableEq

/-- The relational store backing the controllers. -/
structure Store where
  users : List User
  posts : List BlogPost
  tags : List Tag
  postTags : List PostTagRow
  likes : List PostLike
  comments : List CommentRow
deriving Repr, DecidableEq

/-! ## likePost (blogPostController.js, second iteration, lines 722-750)

```js
const already = await prisma.postLike
  .findUnique({ where: { userId_postId: { userId, postId } } })
  .catch(() => null);
if (already) return res.status(200).json({ message: "Already liked" });
await prisma.$transaction([
  prisma.postLike.create({ data: { user: {connect:{id:userId}}, post: {connect:{id:postId}} } }),
  prisma.blogPost.update({ where: {id: postId}, data: { likesCount: { increment: 1 } } }),
]);
const updated = await prisma.blogPost.findUnique({ where: { id: postId } });
return res.json({ message: "Like added", likes: updated.likesCount });
```
The `connect` clauses make the transaction fail (caught as a 500) when the
referenced user or post row does not exist; otherwise the like row is
inserted and the counter incremented in the same transaction. -/

/-- Responses `likePost` can produce.  `alreadyLiked` is the literal
`{ message: "Already liked" }` body: it carries no like count. -/
inductive LikeResult where
  | alreadyLiked
  | likeAdded (likes : Nat)
  | serverError
deriving Repr, DecidableEq

/-- The `likes` field of the JSON body, when one is present. -/
def LikeResult.likesField : LikeResult → Option Nat
  | .alreadyLiked => none
  | .likeAdded n => some n
  | .serverError => none

/-- `findUnique` on the `userId_postId` key of `PostLike`. -/
def findLike (s : Store) (userId postId : Nat) : Option PostLike :=
  s.likes.find? fun l => l.userId == userId && l.postId == postId

/-- `findUnique` on `BlogPost` by primary key. -/
def findPostById (s : Store) (id : Nat) : Option BlogPost :=
  s.posts.find? fun p => p.id == id

/-- The `likesCount` stored for a post (0 when the post is absent). -/
def likesCountOf (s : Store) (postId : Nat) : Nat :=
  match findPostById s postId with
  | some p => p.likesCount
  | none => 0

/-- `likePost` from blogPostController.js (second iteration). -/
def likePost (s : Store) (userId postId : Nat) : LikeResult × Store :=
  match findLike s userId postId with
  | some _ => (LikeResult.alreadyLiked, s)
  | none =>
    -- transaction: postLike.create (connect user & post) + likesCount increment
    if (s.users.any fun u => u.id == userId) && (s.posts.any fun p => p.id == postId) then
      let s' : Store :=
        { s with
          likes := s.likes ++ [⟨userId, postId⟩]
          posts := s.posts.map fun p =>
            if p.id == postId then { p with likesCount := p.likesCount + 1 } else p }
      (LikeResult.likeAdded (likesCountOf s' postId), s')
    else
      (LikeResult.serverError, s)

/-- The like-ledger consistency invariant: like rows are pairwise distinct
pairs, and every post's denormalized `likesCount` equals the number of like
rows referencing it. -/
def LikeInvariant (s : Store) : Prop :=
  s.likes.Pairwise (fun a b => ¬(a.userId = b.userId ∧ a.postId = b.postId)) ∧
  ∀ p ∈ s.posts, p.likesCount = (s.likes.filter fun l => l.postId == p.id).length

/-- One step of the like ledger preserves `LikeInvariant`. -/
theorem likePost_preserves_invariant (s : Store) (u p : Nat)
    (hinv : LikeInvariant s) : LikeInvariant (likePost s u p).2 := by
  obtain ⟨hpw, hcount⟩ := hinv
  cases hfind : findLike s u p with
  | some l =>
    simp only [likePost, hfind]
    exact ⟨hpw, hcount⟩
  | none =>
    by_cases hguard :
        ((s.users.any fun u' => u'.id == u) && (s.posts.any fun q => q.id == p)) = true
    · simp only [likePost, hfind, hguard, if_true]
      constructor
      · rw [List.pairwise_append]
        refine ⟨hpw, List.pairwise_singleton _ _, ?_⟩
        intro a ha b hb
        simp only [List.mem_singleton] at hb
        subst hb
        unfold findLike at hfind
        have h := List.find?_eq_none.mp hfind a ha
        simp only [Bool.and_eq_true, beq_iff_eq, not_and] at h
        simpa using h
      · intro q hq
        simp only [List.mem_map] at hq
        obtain ⟨q0, hq0, rfl⟩ := hq
        by_cases hid : q0.id = p
        · simp only [hid, beq_self_eq_true, if_true]
          simp only [List.filter_append]
          have hone : (List.filter (fun l => l.postId == p) [(⟨u, p⟩ : PostLike)]) =
              [(⟨u, p⟩ : PostLike)] := by simp
          rw [List.length_append, hone]
          have := hcount q0 hq0
          simp only [hid] at this
          simp [this]
        · have hbeq : (q0.id == p) = false := by
            simp [hid]
          simp only [hbeq, Bool.false_eq_true, if_false]
          simp only [List.filter_append]
          have hzero : (List.filter (fun l => l.postId == q0.id) [(⟨u, p⟩ : PostLike)]) =
              [] := by
            simp only [List.filter, decide_eq_true_eq]
            have : ((⟨u, p⟩ : PostLike).postId == q0.id) = false := by
              simp [Ne.symm hid]
            simp [this]
          rw [List.length_append, hzero]
          simpa using hcount q0 hq0
    · simp only [likePost, hfind, hguard, Bool.false_eq_true, if_false]
      exact ⟨hpw, hcount⟩

/-- Folding a sequence of `likePost` calls over the store. -/
def applyLikes (s : Store) (calls : List (Nat × Nat)) : Store :=
  calls.foldl (fun st c => (likePost st c.1 c.2).2) s

/-- Any sequence of `likePost` calls preserves `LikeInvariant`. -/
theorem applyLikes_invariant (calls : List (Nat × Nat)) (s : Store)
    (hinv : LikeInvariant s) : LikeInvariant (applyLikes s calls) := by
  induction calls generalizing s with
  | nil => exact hinv
  | cons c rest ih =>
    exact ih _ (likePost_preserves_invariant s c.1 c.2 hinv)

/-- A concrete store: user 7, post 1 with one like by user 7, counter 1. -/
def likeStoreEx : Store :=
  { users := [{ id := 7, name := "u", email := "u@example.com", password := "h",
                profileImageUrl := "", bio := "", role := "member" }]
    posts := [{ id := 1, title := "T", slug := "t", content := "c", isDraft := false,
                generatedByAI := false, views := 0, likesCount := 1, authorId := 7,
                updatedAt := 0 }]
    tags := []
    postTags := []
    likes := [⟨7, 1⟩]
    comments := [] }

/-- C1, counterexample: with the like row (7, 1) already present, a second
`likePost 7 1` answers with the bare `"Already liked"` body, whose `likes`
field is absent — it does not return the current like count (which is 1). -/
theorem likePost_repeat_returns_no_count :
    findLike likeStoreEx 7 1 ≠ none ∧
    likesCountOf likeStoreEx 1 = 1 ∧
    (likePost likeStoreEx 7 1).1.likesField = none := by
  refine ⟨by decide, by decide, by decide⟩

/-- C1 (amended): `likePost` is idempotent on the store — if a Like row for
(u, p) already exists, a second call creates no new Like row and does not
increment `likesCount` (the store is returned unchanged), but it answers
with the bare `"Already liked"` message, not the current like count; and
after any sequence of like calls starting from a consistent store there is
at most one Like row per (u, p) pair and `likesCount` equals the number of
distinct likers of the post. -/
theorem claim_C1_like_idempotent (s : Store) (u p : Nat)
    (hinv : LikeInvariant s) (calls : List (Nat × Nat)) :
    (findLike s u p ≠ none →
      (likePost s u p).2 = s ∧ (likePost s u p).1 = LikeResult.alreadyLiked ∧
      (likePost s u p).1.likesField = none) ∧
    LikeInvariant (applyLikes s calls) := by
  constructor
  · intro hfind
    cases h : findLike s u p with
    | none => exact absurd h hfind
    | some l => simp [likePost, h, LikeResult.likesField]
  · exact applyLikes_invariant calls s hinv

/-- C1 witness: the amended theorem applied to the concrete store
`likeStoreEx`, a repeated like by user 7 and a fresh like by user 8. -/
theorem claim_C1_like_idempotent_witness :
    ((findLike likeStoreEx 7 1 ≠ none →
      (likePost likeStoreEx 7 1).2 = likeStoreEx ∧
      (likePost likeStoreEx 7 1).1 = LikeResult.alreadyLiked ∧
      (likePost likeStoreEx 7 1).1.likesField = none) ∧
    LikeInvariant (applyLikes likeStoreEx [(7, 1), (8, 1)])) ∧
    findLike likeStoreEx 7 1 ≠ none := by
  refine ⟨claim_C1_like_idempotent likeStoreEx 7 1 ?_ [(7, 1), (8, 1)], by decide⟩
  constructor
  · decide
  · decide

/-! ## createPost (blogPostController.js, second iteration, lines 368-497)

The slug is derived with the external library call
`slugify(title, { lower: true, strict: true })`, then a loop probes the
store and, while the candidate slug is taken, switches to
`` `${baseSlug}-${Date.now().toString(36)}-${suffixCounter}` `` with the
counter incremented on every retry:

```js
const baseSlug = slugify(title, { lower: true, strict: true });
let slug = baseSlug;
let suffixCounter = 0;
while (true) {
  const existing = await prisma.blogPost.findUnique({ where: { slug } });
  if (!existing) break;
  suffixCounter += 1;
  slug = `${baseSlug}-${Date.now().toString(36)}-${suffixCounter}`;
}
```
The post row is then inserted together with its `postTags` rows in one
nested `create` (tags resolved with `connectOrCreate`), and the
`broadcast-new-post` job submission is wrapped in its own try/catch whose
failure is logged and swallowed. -/

/-- One base-36 digit, as produced by JavaScript `Number.toString(36)`. -/
def base36Digit (n : Nat) : Char :=
  if n < 10 then Char.ofNat (48 + n) else Char.ofNat (87 + n)

/-- Base-36 digit expansion (fuel-bounded division recursion). -/
def toBase36Core : Nat → Nat → List Char
  | 0, _ => []
  | fuel + 1, n =>
    if n < 36 then [base36Digit n]
    else toBase36Core fuel (n / 36) ++ [base36Digit (n % 36)]

/-- JavaScript `n.toString(36)` for a natural number. -/
def natToBase36 (n : Nat) : String := String.mk (toBase36Core (n + 1) n)

/-- Split a character list into its maximal space-free runs, dropping
empty runs (`acc` accumulates the current run in reverse). -/
def wordsAux : List Char → List Char → List (List Char)
  | [], acc => if acc.isEmpty then [] else [acc.reverse]
  | c :: rest, acc =>
    if c == ' ' then
      if acc.isEmpty then wordsAux rest []
      else acc.reverse :: wordsAux rest []
    else wordsAux rest (c :: acc)

/-- The space-separated words of a character list. -/
def wordsOf (l : List Char) : List (List Char) := wordsAux l []

/-- Join words with single hyphens. -/
def hyphenJoin : List (List Char) → List Char
  | [] => []
  | [w] => w
  | w :: rest => w ++ '-' :: hyphenJoin rest

/-- Modelled from the spec: the external npm `slugify` library called as
`slugify(title, { lower: true, strict: true })` — the library itself is not
part of this repository.  Per the spec it lowercases the title and keeps
only alphanumeric runs joined by single hyphens: `strict` drops every
character that is neither alphanumeric nor a space, the remaining
whitespace runs are collapsed to one `-`, and the result is lowercased. -/
def slugifyLowerStrict (title : String) : String :=
  let kept := title.data.filter fun c => c.isAlphanum || c == ' '
  let lowered := kept.map Char.toLower
  String.mk (hyphenJoin (wordsOf lowered))

/-- `findUnique({ where: { slug } })` viewed as a taken-slug test. -/
def slugTaken (posts : List BlogPost) (slug : String) : Bool :=
  posts.any fun p => p.slug == slug

/-- The slug-disambiguation loop of `createPost`.  The JavaScript loop is
unbounded; the embedding carries fuel and answers `none` when it runs out
(modelling divergence), faithfully probing the store at each step. -/
def slugLoop (posts : List BlogPost) (base : String) (now : Nat) :
    Nat → String → Nat → Option String
  | 0, _, _ => none
  | fuel + 1, slug, counter =>
    if slugTaken posts slug then
      slugLoop posts base now fuel
        (base ++ "-" ++ natToBase36 now ++ "-" ++ toString (counter + 1))
        (counter + 1)
    else some slug

/-- A slug the loop settles on is never one already present in the store. -/
theorem slugLoop_not_taken (posts : List BlogPost) (base : String) (now : Nat) :
    ∀ fuel slug counter res,
      slugLoop posts base now fuel slug counter = some res →
      slugTaken posts res = false := by
  intro fuel
  induction fuel with
  | zero => intro slug counter res h; simp [slugLoop] at h
  | succ n ih =>
    intro slug counter res h
    by_cases htaken : slugTaken posts slug = true
    · simp only [slugLoop, htaken, if_true] at h
      exact ih _ _ _ h
    · simp only [slugLoop, htaken, Bool.false_eq_true, if_false,
        Option.some.injEq] at h
      subst h
      simpa using htaken

/-- Fresh primary key for an inserted post (the store auto-generates ids). -/
def freshPostId (s : Store) : Nat :=
  (s.posts.map fun p => p.id).foldr max 0 + 1

/-- Fresh primary key for an inserted tag. -/
def freshTagId (s : Store) : Nat :=
  (s.tags.map fun t => t.id).foldr max 0 + 1

/-- Every member of a list of naturals is bounded by its `foldr max 0`. -/
theorem mem_le_foldr_max (l : List Nat) : ∀ x ∈ l, x ≤ l.foldr max 0 := by
  induction l with
  | nil => intro x hx; cases hx
  | cons a l ih =>
    intro x hx
    rcases List.mem_cons.mp hx with h | h
    · subst h; exact le_max_left _ _
    · exact le_trans (ih x h) (le_max_right _ _)

/-- `tag.upsert` / `connectOrCreate` on the unique `name` index: return the
existing tag or insert a fresh one. -/
def upsertTag (s : Store) (name : String) : Tag × Store :=
  match s.tags.find? fun t => t.name == name with
  | some t => (t, s)
  | none =>
    let t : Tag := ⟨freshTagId s, name⟩
    (t, { s with tags := s.tags ++ [t] })

/-- Create one `PostTag` join row per tag name, resolving each tag with
`connectOrCreate` (the nested `postTags.create` of `createPost`). -/
def createPostTagRows (s : Store) (postId : Nat) : List String → Store
  | [] => s
  | name :: rest =>
    let t := (upsertTag s name).1
    let s1 := (upsertTag s name).2
    createPostTagRows
      { s1 with postTags := s1.postTags ++ [⟨postId, t.id⟩] } postId rest

/-- `upsertTag` touches only the `tags` table. -/
theorem upsertTag_posts (s : Store) (name : String) :
    (upsertTag s name).2.posts = s.posts := by
  unfold upsertTag
  cases s.tags.find? fun t => t.name == name <;> rfl

/-- `createPostTagRows` never touches the `posts` table. -/
theorem createPostTagRows_posts (names : List String) :
    ∀ (s : Store) (postId : Nat),
      (createPostTagRows s postId names).posts = s.posts := by
  induction names with
  | nil => intro s postId; rfl
  | cons name rest ih =>
    intro s postId
    unfold createPostTagRows
    rw [ih]
    exact upsertTag_posts s name

/-- Whether the agenda job submission threw. -/
inductive NotifyOutcome where
  | ok
  | fail
deriving Repr, DecidableEq

/-- Responses `createPost` can produce. -/
inductive CreateResult where
  | badRequest
  | created (post : BlogPost)
  | serverError
deriving Repr, DecidableEq

/-- `createPost` from blogPostController.js (second iteration).  `now` is
`Date.now()` (also used as the row timestamp); `notify` records whether the
`broadcast-new-post` submission threw — the catch block only logs it. -/
def createPost (s : Store) (authorId : Nat) (title content : String)
    (tags : List String) (isDraft generatedByAI : Bool) (now : Nat)
    (notify : NotifyOutcome) : CreateResult × Store :=
  if title == "" || content == "" then (CreateResult.badRequest, s)
  else
    match slugLoop s.posts (slugifyLowerStrict title) now
        (s.posts.length + 1) (slugifyLowerStrict title) 0 with
    | none => (CreateResult.serverError, s)
    | some slug =>
      -- blogPost.create with author connect and nested postTags create;
      -- a missing author makes the create throw (caught as a 500)
      if s.users.any fun u => u.id == authorId then
        let post : BlogPost :=
          { id := freshPostId s, title, slug, content, isDraft, generatedByAI,
            views := 0, likesCount := 0, authorId, updatedAt := now }
        let s2 := createPostTagRows { s with posts := s.posts ++ [post] } post.id tags
        match notify with
        | .ok => (CreateResult.created post, s2)
        | .fail => (CreateResult.created post, s2)  -- notify error swallowed
      else (CreateResult.serverError, s)

/-- Shape of a successful `createPost`: the chosen slug was free in the
prior store, the post was appended, and it got the fresh primary key. -/
theorem createPost_created_spec (s : Store) (authorId : Nat)
    (title content : String) (tags : List String) (d g : Bool) (now : Nat)
    (nf : NotifyOutcome) (p : BlogPost) (s' : Store)
    (h : createPost s authorId title content tags d g now nf =
      (CreateResult.created p, s')) :
    slugTaken s.posts p.slug = false ∧ s'.posts = s.posts ++ [p] ∧
    p.id = freshPostId s := by
  unfold createPost at h
  by_cases ht : (title == "" || content == "") = true
  · simp [ht] at h
  · simp only [ht, Bool.false_eq_true, if_false] at h
    cases hslug : slugLoop s.posts (slugifyLowerStrict title) now
        (s.posts.length + 1) (slugifyLowerStrict title) 0 with
    | none => rw [hslug] at h; simp at h
    | some slug =>
      rw [hslug] at h
      by_cases hauthor : (s.users.any fun u => u.id == authorId) = true
      · simp only [hauthor, if_true] at h
        cases nf <;>
          simp only [Prod.mk.injEq, CreateResult.created.injEq] at h <;>
          obtain ⟨hp, hs⟩ := h <;>
          subst hp <;> subst hs <;>
          exact ⟨slugLoop_not_taken s.posts _ now _ _ _ _ hslug,
            createPostTagRows_posts tags _ _, rfl⟩
      · simp [hauthor] at h

/-- C2: two posts created through `createPost` with the same title receive
different slugs — the second run finds the first slug taken and retries
with the time-based suffix until the candidate is free of every stored
slug — and both posts are retrievable rows of the final store. -/
theorem claim_C2_slug_unique (s : Store) (a1 a2 : Nat) (title c1 c2 : String)
    (tg1 tg2 : List String) (d1 g1 d2 g2 : Bool) (t1 t2 : Nat)
    (n1 n2 : NotifyOutcome) (p1 p2 : BlogPost) (s1 s2 : Store)
    (h1 : createPost s a1 title c1 tg1 d1 g1 t1 n1 = (CreateResult.created p1, s1))
    (h2 : createPost s1 a2 title c2 tg2 d2 g2 t2 n2 = (CreateResult.created p2, s2)) :
    p1 ≠ p2 ∧ p1.slug ≠ p2.slug ∧ p1 ∈ s2.posts ∧ p2 ∈ s2.posts := by
  obtain ⟨htaken1, hposts1, hid1⟩ :=
    createPost_created_spec s a1 title c1 tg1 d1 g1 t1 n1 p1 s1 h1
  obtain ⟨htaken2, hposts2, hid2⟩ :=
    createPost_created_spec s1 a2 title c2 tg2 d2 g2 t2 n2 p2 s2 h2
  have hp1mem : p1 ∈ s1.posts := by
    rw [hposts1]; exact List.mem_append_right _ (List.mem_singleton_self p1)
  have hslugne : p1.slug ≠ p2.slug := by
    intro he
    have htk : slugTaken s1.posts p2.slug = true := by
      unfold slugTaken
      rw [List.any_eq_true]
      exact ⟨p1, hp1mem, by simp [he]⟩
    rw [htaken2] at htk
    cases htk
  have hidne : p1.id ≠ p2.id := by
    have hmem : p1.id ∈ s1.posts.map fun p => p.id :=
      List.mem_map.mpr ⟨p1, hp1mem, rfl⟩
    have hle := mem_le_foldr_max _ _ hmem
    unfold freshPostId at hid2
    omega
  refine ⟨fun he => hidne (by rw [he]), hslugne, ?_, ?_⟩
  · rw [hposts2]; exact List.mem_append_left _ hp1mem
  · rw [hposts2]; exact List.mem_append_right _ (List.mem_singleton_self p2)

/-- Author on the concrete slug-uniqueness run. -/
def c2user : User :=
  { id := 1, name := "a", email := "a@example.com", password := "h",
    profileImageUrl := "", bio := "", role := "admin" }

/-- Initial store of the concrete slug-uniqueness run. -/
def c2store0 : Store :=
  { users := [c2user], posts := [], tags := [], postTags := [], likes := [],
    comments := [] }

/-- First post created with title "Hello World" (slug `hello-world`). -/
def c2post1 : BlogPost :=
  { id := 1, title := "Hello World", slug := "hello-world", content := "c1",
    isDraft := false, generatedByAI := false, views := 0, likesCount := 0,
    authorId := 1, updatedAt := 0 }

/-- Store after the first create. -/
def c2store1 : Store := { c2store0 with posts := [c2post1] }

/-- Second post with the same title: the loop finds `hello-world` taken and
settles on the time-suffixed `hello-world-5-1`. -/
def c2post2 : BlogPost :=
  { id := 2, title := "Hello World", slug := "hello-world-5-1",
    content := "c2", isDraft := false, generatedByAI := false, views := 0,
    likesCount := 0, authorId := 1, updatedAt := 5 }

/-- Store after the second create. -/
def c2store2 : Store := { c2store0 with posts := [c2post1, c2post2] }

/-- C2 witness: the slug-uniqueness theorem on the concrete double creation
of "Hello World". -/
theorem claim_C2_slug_unique_witness :
    c2post1 ≠ c2post2 ∧ c2post1.slug ≠ c2post2.slug ∧
    c2post1 ∈ c2store2.posts ∧ c2post2 ∈ c2store2.posts :=
  claim_C2_slug_unique c2store0 1 1 "Hello World" "c1" "c2" [] [] false false
    false false 0 5 .ok .ok c2post1 c2post2 c2store1 c2store2
    (by decide) (by decide)

/-! ## updatePost, tags branch (blogPostController.js, second iteration, lines 500-571)

When the payload carries `tags`, `updatePost` first checks that the post
exists (404 otherwise), applies the scalar part of the payload, and then
replaces the whole tag set in one transaction:

```js
await prisma.$transaction(async (tx) => {
  await tx.postTag.deleteMany({ where: { postId: id } });
  for (const tagName of newTags) {
    const tag = await tx.tag.upsert({ where: { name: tagName }, update: {}, create: { name: tagName } });
    await tx.postTag.create({ data: { post: { connect: { id } }, tag: { connect: { id: tag.id } } } });
  }
});
```
`tx.tag.upsert` on the unique `name` index has the same semantics as the
`connectOrCreate` used by `createPost`, so the loop body is embedded with
the shared `upsertTag`/`createPostTagRows` definitions. -/

/-- The name of the tag with the given id (first match), if any. -/
def tagNameIn (tags : List Tag) (tagId : Nat) : Option String :=
  (tags.find? fun t => t.id == tagId).map fun t => t.name

/-- A successful name lookup is stable under appending further tags. -/
theorem tagNameIn_append (tags ext : List Tag) (i : Nat) (n : String)
    (h : tagNameIn tags i = some n) : tagNameIn (tags ++ ext) i = some n := by
  unfold tagNameIn at h ⊢
  cases hf : tags.find? fun t => t.id == i with
  | none => rw [hf] at h; simp at h
  | some t =>
    rw [hf] at h
    rw [List.find?_append, hf]
    simpa using h

/-- With pairwise-distinct ids, looking a member tag up by its id finds it. -/
theorem find_by_id_of_nodup (tags : List Tag)
    (hids : (tags.map fun t => t.id).Nodup) (t : Tag) (ht : t ∈ tags) :
    (tags.find? fun t' => t'.id == t.id) = some t := by
  induction tags with
  | nil => cases ht
  | cons a l ih =>
    simp only [List.map_cons, List.nodup_cons] at hids
    rcases List.mem_cons.mp ht with h | h
    · subst h; simp [List.find?_cons]
    · have hne : (a.id == t.id) = false := by
        have hmem : t.id ∈ l.map fun t => t.id := List.mem_map.mpr ⟨t, h, rfl⟩
        have : a.id ≠ t.id := fun he => hids.1 (he ▸ hmem)
        simp [this]
      rw [List.find?_cons, hne]
      exact ih hids.2 h

/-- The fresh tag id differs from the id of every stored tag. -/
theorem freshTagId_not_mem (s : Store) (t : Tag) (ht : t ∈ s.tags) :
    t.id ≠ freshTagId s := by
  have := mem_le_foldr_max (s.tags.map fun t => t.id) t.id
    (List.mem_map.mpr ⟨t, ht, rfl⟩)
  unfold freshTagId
  omega

/-- `upsertTag` grows the tag table by at most one fresh tag, keeps ids
pairwise distinct, resolves the requested name correctly, and leaves every
other table untouched. -/
theorem upsertTag_spec (s : Store) (name : String)
    (hids : (s.tags.map fun t => t.id).Nodup) :
    ∃ ext : List Tag,
      (upsertTag s name).2.tags = s.tags ++ ext ∧
      (((upsertTag s name).2.tags.map fun t => t.id).Nodup) ∧
      tagNameIn (upsertTag s name).2.tags (upsertTag s name).1.id = some name ∧
      (upsertTag s name).2.postTags = s.postTags := by
  cases hf : s.tags.find? fun t => t.name == name with
  | some t =>
    have h1 : upsertTag s name = (t, s) := by unfold upsertTag; rw [hf]
    rw [h1]
    refine ⟨[], by simp, by simpa using hids, ?_, rfl⟩
    have hmem := List.mem_of_find?_eq_some hf
    have hname : t.name = name := by simpa using List.find?_some hf
    unfold tagNameIn
    rw [find_by_id_of_nodup s.tags hids t hmem]
    simp [hname]
  | none =>
    have h1 : upsertTag s name =
        (⟨freshTagId s, name⟩,
         { s with tags := s.tags ++ [⟨freshTagId s, name⟩] }) := by
      unfold upsertTag; rw [hf]
    rw [h1]
    refine ⟨[⟨freshTagId s, name⟩], rfl, ?_, ?_, rfl⟩
    · rw [List.map_append, List.nodup_append]
      refine ⟨hids, by simp, ?_⟩
      intro x hx
      obtain ⟨t, ht, rfl⟩ := List.mem_map.mp hx
      simp only [List.map_cons, List.map_nil, List.mem_singleton]
      exact freshTagId_not_mem s t ht
    · unfold tagNameIn
      rw [List.find?_append]
      have hnone : (s.tags.find? fun t' => t'.id == freshTagId s) = none := by
        rw [List.find?_eq_none]
        intro t ht
        simp [freshTagId_not_mem s t ht]
      rw [hnone]
      simp [List.find?_cons]

/-- One step of the tag-link loop: upsert the tag for a name and append
the join row linking it to the post. -/
def linkStep (s : Store) (pid : Nat) (n : String) : Store :=
  { (upsertTag s n).2 with
    postTags := (upsertTag s n).2.postTags ++ [⟨pid, (upsertTag s n).1.id⟩] }

/-- The loop processes one name per step. -/
theorem createPostTagRows_cons (s : Store) (pid : Nat) (n : String)
    (rest : List String) :
    createPostTagRows s pid (n :: rest) =
      createPostTagRows (linkStep s pid n) pid rest := rfl

/-- Shape of the tag-link loop: the tag table grows by an extension, ids
stay pairwise distinct, and the join rows appended at the end are exactly
one row per processed name, each resolving (in the final tag table) to its
name, all attached to the given post. -/
theorem createPostTagRows_spec (names : List String) :
    ∀ (s : Store) (pid : Nat), ((s.tags.map fun t => t.id).Nodup) →
    ∃ (ext : List Tag) (rows : List PostTagRow),
      (createPostTagRows s pid names).tags = s.tags ++ ext ∧
      (((createPostTagRows s pid names).tags.map fun t => t.id).Nodup) ∧
      (createPostTagRows s pid names).postTags = s.postTags ++ rows ∧
      (∀ r ∈ rows, r.postId = pid) ∧
      rows.map (fun r => tagNameIn (createPostTagRows s pid names).tags r.tagId)
        = names.map some := by
  induction names with
  | nil =>
    intro s pid hids
    exact ⟨[], [], by simp [createPostTagRows], by simpa using hids,
      by simp [createPostTagRows], by simp, by simp [createPostTagRows]⟩
  | cons n rest ih =>
    intro s pid hids
    obtain ⟨ext1, h1tags, h1nodup, h1name, h1pt⟩ := upsertTag_spec s n hids
    have hltags : (linkStep s pid n).tags = (upsertTag s n).2.tags := rfl
    have hlpt : (linkStep s pid n).postTags =
        s.postTags ++ [⟨pid, (upsertTag s n).1.id⟩] := by
      show (upsertTag s n).2.postTags ++ [⟨pid, (upsertTag s n).1.id⟩] =
        s.postTags ++ [⟨pid, (upsertTag s n).1.id⟩]
      rw [h1pt]
    have hids2 : (((linkStep s pid n).tags.map fun t => t.id).Nodup) := by
      rw [hltags]; exact h1nodup
    obtain ⟨ext2, rows2, h2tags, h2nodup, h2pt, h2pid, h2names⟩ :=
      ih (linkStep s pid n) pid hids2
    rw [hltags, h1tags] at h2tags
    rw [hlpt] at h2pt
    refine ⟨ext1 ++ ext2, ⟨pid, (upsertTag s n).1.id⟩ :: rows2, ?_, ?_, ?_, ?_, ?_⟩
    · rw [createPostTagRows_cons, h2tags, List.append_assoc]
    · rw [createPostTagRows_cons]; exact h2nodup
    · rw [createPostTagRows_cons, h2pt, List.append_assoc]
      rfl
    · intro r hr
      rcases List.mem_cons.mp hr with h | h
      · subst h; rfl
      · exact h2pid r h
    · rw [createPostTagRows_cons, List.map_cons]
      have hhead :
          tagNameIn (createPostTagRows (linkStep s pid n) pid rest).tags
            (PostTagRow.mk pid (upsertTag s n).1.id).tagId = some n := by
        show tagNameIn (createPostTagRows (linkStep s pid n) pid rest).tags
          (upsertTag s n).1.id = some n
        rw [h2tags, ← h1tags]
        exact tagNameIn_append _ _ _ _ h1name
      rw [hhead, h2names]
      rfl

/-- Responses `updatePost` can produce. -/
inductive UpdateResult where
  | notFound
  | updated
  | serverError
deriving Repr, DecidableEq

/-- `updatePost` from blogPostController.js (second iteration), on a
payload that carries `tags` and no scalar field: existence check, then the
replace-tags transaction (deleteMany all join rows of the post, then
upsert-and-link each new tag name in order). -/
def updatePostTags (s : Store) (id : Nat) (newTags : List String) :
    UpdateResult × Store :=
  match findPostById s id with
  | none => (UpdateResult.notFound, s)
  | some _ =>
    (UpdateResult.updated,
      createPostTagRows
        { s with postTags := s.postTags.filter fun pt => !(pt.postId == id) }
        id newTags)

/-- Filtering for a post right after filtering it away yields nothing. -/
theorem filter_id_after_removal (l : List PostTagRow) (id : Nat) :
    ((l.filter fun pt => !(pt.postId == id)).filter
      fun pt => pt.postId == id) = [] := by
  induction l with
  | nil => rfl
  | cons a l ih =>
    cases hb : a.postId == id with
    | true => simp [List.filter_cons, hb, ih]
    | false => simp [List.filter_cons, hb, ih]

/-- C3: for an existing post, updating with a `tags` payload replaces the
join rows of that post so that they correspond exactly, in order and
without duplicates, to the new tag names (tags resolved-or-created by
name), while join rows of other posts are untouched; the
delete-then-recreate runs as the single transactional step embedded in
`updatePostTags`. -/
theorem claim_C3_update_replaces_tags (s : Store) (id : Nat)
    (newTags : List String) (hpost : findPostById s id ≠ none)
    (hids : (s.tags.map fun t => t.id).Nodup) (hnodup : newTags.Nodup) :
    (updatePostTags s id newTags).1 = UpdateResult.updated ∧
    (((updatePostTags s id newTags).2.postTags.filter
        fun pt => pt.postId == id).map
      fun r => tagNameIn (updatePostTags s id newTags).2.tags r.tagId)
        = newTags.map some ∧
    ((((updatePostTags s id newTags).2.postTags.filter
        fun pt => pt.postId == id).map fun r => r.tagId).Nodup) ∧
    ((updatePostTags s id newTags).2.postTags.filter
        fun pt => !(pt.postId == id))
      = s.postTags.filter fun pt => !(pt.postId == id) := by
  cases hf : findPostById s id with
  | none => exact absurd hf hpost
  | some p0 =>
    have hupd : updatePostTags s id newTags =
        (UpdateResult.updated,
          createPostTagRows
            { s with postTags := s.postTags.filter fun pt => !(pt.postId == id) }
            id newTags) := by
      unfold updatePostTags; rw [hf]
    obtain ⟨ext, rows, htags, hnodupids, hpt, hpid, hnames⟩ :=
      createPostTagRows_spec newTags
        { s with postTags := s.postTags.filter fun pt => !(pt.postId == id) }
        id (by simpa using hids)
    have hrows_kept :
        (rows.filter fun pt => pt.postId == id) = rows := by
      rw [List.filter_eq_self]
      intro r hr
      simp [hpid r hr]
    have hfilter :
        ((updatePostTags s id newTags).2.postTags.filter
          fun pt => pt.postId == id) = rows := by
      rw [hupd]
      show ((createPostTagRows _ id newTags).postTags.filter
        fun pt => pt.postId == id) = rows
      rw [hpt, List.filter_append]
      show ((s.postTags.filter fun pt => !(pt.postId == id)).filter
          fun pt => pt.postId == id) ++ _ = rows
      rw [filter_id_after_removal, hrows_kept]
      rfl
    refine ⟨by rw [hupd], ?_, ?_, ?_⟩
    · rw [hfilter, hupd]
      exact hnames
    · rw [hfilter]
      have hmapped :
          (rows.map fun r => r.tagId).map
            (tagNameIn (createPostTagRows
              { s with postTags := s.postTags.filter fun pt => !(pt.postId == id) }
              id newTags).tags)
            = newTags.map some := by
        rw [List.map_map]
        exact hnames
      have hsome : (newTags.map some).Nodup :=
        hnodup.map (Option.some_injective String)
      rw [← hmapped] at hsome
      exact List.Nodup.of_map _ hsome
    · rw [hupd]
      show ((createPostTagRows _ id newTags).postTags.filter
        fun pt => !(pt.postId == id)) = s.postTags.filter fun pt => !(pt.postId == id)
      rw [hpt, List.filter_append]
      have h1 : ((s.postTags.filter fun pt => !(pt.postId == id)).filter
          fun pt => !(pt.postId == id)) = s.postTags.filter fun pt => !(pt.postId == id) := by
        rw [List.filter_eq_self]
        intro r hr
        exact (List.mem_filter.mp hr).2
      have h2 : (rows.filter fun pt => !(pt.postId == id)) = [] := by
        rw [List.filter_eq_nil_iff]
        intro r hr
        simp [hpid r hr]
      rw [h1, h2, List.append_nil]

/-- Store for the concrete tag-replacement run: post 1 currently carries
tag 1, named "old". -/
def c3store : Store :=
  { users := [c2user], posts := [c2post1], tags := [⟨1, "old"⟩],
    postTags := [⟨1, 1⟩], likes := [], comments := [] }

/-- C3 witness: replacing post 1's tags by `["x", "y"]` on the concrete
store. -/
theorem claim_C3_update_replaces_tags_witness :
    (updatePostTags c3store 1 ["x", "y"]).1 = UpdateResult.updated ∧
    (((updatePostTags c3store 1 ["x", "y"]).2.postTags.filter
        fun pt => pt.postId == 1).map
      fun r => tagNameIn (updatePostTags c3store 1 ["x", "y"]).2.tags r.tagId)
        = (["x", "y"].map some) ∧
    ((((updatePostTags c3store 1 ["x", "y"]).2.postTags.filter
        fun pt => pt.postId == 1).map fun r => r.tagId).Nodup) ∧
    ((updatePostTags c3store 1 ["x", "y"]).2.postTags.filter
        fun pt => !(pt.postId == 1))
      = c3store.postTags.filter fun pt => !(pt.postId == 1) :=
  claim_C3_update_replaces_tags c3store 1 ["x", "y"]
    (by decide) (by decide) (by decide)

/-! ## deletePost (blogPostController.js, second iteration, lines 574-596)

```js
const post = await prisma.blogPost.findUnique({ where: { id } });
if (!post) return res.status(404).json({ message: "Post not found" });
await prisma.$transaction([
  prisma.postTag.deleteMany({ where: { postId: id } }),
  prisma.postLike.deleteMany({ where: { postId: id } }),
  prisma.comment.deleteMany({ where: { postId: id } }),
  prisma.blogPost.delete({ where: { id } }),
]);
```
Join rows, likes, comments and finally the post are removed in that order
inside one transaction. -/

/-- Responses `deletePost` can produce. -/
inductive DeleteResult where
  | notFound
  | deleted
deriving Repr, DecidableEq

/-- `deletePost` from blogPostController.js (second iteration). -/
def deletePost (s : Store) (id : Nat) : DeleteResult × Store :=
  match findPostById s id with
  | none => (DeleteResult.notFound, s)
  | some _ =>
    (DeleteResult.deleted,
      { s with
        postTags := s.postTags.filter fun pt => !(pt.postId == id)
        likes := s.likes.filter fun l => !(l.postId == id)
        comments := s.comments.filter fun c => !(c.postId == id)
        posts := s.posts.filter fun p => !(p.id == id) })

/-- Filtering rows back out by a key just removed yields nothing. -/
theorem filter_key_after_removal {α : Type} (f : α → Nat) (l : List α)
    (id : Nat) :
    ((l.filter fun a => !(f a == id)).filter fun a => f a == id) = [] := by
  induction l with
  | nil => rfl
  | cons a l ih =>
    cases hb : f a == id with
    | true => simp [List.filter_cons, hb, ih]
    | false => simp [List.filter_cons, hb, ih]

/-- C4: deleting an existing post removes, in one transaction, all of its
join rows, like rows and comments and then the post itself, so that
querying any of them by the deleted post id afterwards returns empty; for
a non-existent id `deletePost` answers NotFound and leaves the store
untouched. -/
theorem claim_C4_delete_cascades (s : Store) (id : Nat) :
    (findPostById s id ≠ none →
      (deletePost s id).1 = DeleteResult.deleted ∧
      ((deletePost s id).2.postTags.filter fun pt => pt.postId == id) = [] ∧
      ((deletePost s id).2.likes.filter fun l => l.postId == id) = [] ∧
      ((deletePost s id).2.comments.filter fun c => c.postId == id) = [] ∧
      findPostById (deletePost s id).2 id = none) ∧
    (findPostById s id = none →
      deletePost s id = (DeleteResult.notFound, s)) := by
  constructor
  · intro hpost
    cases hf : findPostById s id with
    | none => exact absurd hf hpost
    | some p0 =>
      have hdel : deletePost s id =
          (DeleteResult.deleted,
            { s with
              postTags := s.postTags.filter fun pt => !(pt.postId == id)
              likes := s.likes.filter fun l => !(l.postId == id)
              comments := s.comments.filter fun c => !(c.postId == id)
              posts := s.posts.filter fun p => !(p.id == id) }) := by
        unfold deletePost; rw [hf]
      rw [hdel]
      refine ⟨rfl, ?_, ?_, ?_, ?_⟩
      · exact filter_key_after_removal (fun pt => pt.postId) s.postTags id
      · exact filter_key_after_removal (fun l => l.postId) s.likes id
      · exact filter_key_after_removal (fun c => c.postId) s.comments id
      · show ((s.posts.filter fun p => !(p.id == id)).find? fun p => p.id == id) = none
        rw [List.find?_eq_none]
        intro p hp
        have := (List.mem_filter.mp hp).2
        intro hcontra
        rw [hcontra] at this
        cases this
  · intro hf
    unfold deletePost
    rw [hf]

/-- Store for the concrete cascade-delete run: post 1 with one join row,
one like and one comment. -/
def c4store : Store :=
  { users := [c2user], posts := [c2post1], tags := [⟨1, "old"⟩],
    postTags := [⟨1, 1⟩], likes := [⟨1, 1⟩],
    comments := [⟨1, 1, 1, "hi", none, 0⟩] }

/-- C4 witness: the cascade-delete theorem on the concrete store, both for
the existing post 1 and for the absent post 2. -/
theorem claim_C4_delete_cascades_witness :
    ((deletePost c4store 1).1 = DeleteResult.deleted ∧
      ((deletePost c4store 1).2.postTags.filter fun pt => pt.postId == 1) = [] ∧
      ((deletePost c4store 1).2.likes.filter fun l => l.postId == 1) = [] ∧
      ((deletePost c4store 1).2.comments.filter fun c => c.postId == 1) = [] ∧
      findPostById (deletePost c4store 1).2 1 = none) ∧
    deletePost c4store 2 = (DeleteResult.notFound, c4store) :=
  ⟨(claim_C4_delete_cascades c4store 1).1 (by decide),
   (claim_C4_delete_cascades c4store 2).2 (by decide)⟩

/-! ## getCommentsByPost (commentController.js, lines 76-107)

```js
const comments = await prisma.comment.findMany({
  where: { postId },
  orderBy: { createdAt: "asc" },
});
const map = {};
const list = comments.map((c) => ({ ...c, replies: [] }));
list.forEach((c) => (map[c.id] = c));
const root = [];
list.forEach((c) => {
  if (c.parentId) {
    const p = map[c.parentId];
    if (p) p.replies.push(c);
  } else {
    root.push(c);
  }
});
res.json(root);
```
Because `map` holds every node before the grouping pass and the node
objects are shared by reference, the denotation of the mutation is: roots
are the comments with null `parentId`, in fetch order, and the replies of
any node with id `i` are the fetched comments whose `parentId` is `i`, in
fetch order, recursively.  A comment whose `parentId` is set but matches
no fetched id is pushed nowhere (`if (p)` fails), so it is dropped from
the output.  `buildTree` realises that denotation with fuel bounded by the
list length (enough for every acyclic parent chain over distinct ids). -/

/-- A node of the rendered comment forest: the row with its replies. -/
inductive CTree where
  | node (c : CommentRow) (replies : List CTree)

/-- The comment row at the root of a tree. -/
def CTree.rowOf : CTree → CommentRow
  | .node c _ => c

/-- The fetched comments whose `parentId` equals `i`, in fetch order. -/
def childrenOf (l : List CommentRow) (i : Nat) : List CommentRow :=
  l.filter fun c => c.parentId == some i

/-- The tree rooted at `c`, nesting replies recursively (fuel-bounded). -/
def buildTree (l : List CommentRow) : Nat → CommentRow → CTree
  | 0, c => .node c []
  | fuel + 1, c => .node c ((childrenOf l c.id).map (buildTree l fuel))

/-- The forest the controller sends: one tree per null-parent comment. -/
def buildForest (l : List CommentRow) : List CTree :=
  (l.filter fun c => c.parentId == none).map (buildTree l l.length)

/-- Stable insertion into a list sorted ascending by `createdAt`. -/
def insertByCreated (c : CommentRow) : List CommentRow → List CommentRow
  | [] => [c]
  | d :: rest =>
    if c.createdAt ≤ d.createdAt then c :: d :: rest
    else d :: insertByCreated c rest

/-- Stable sort ascending by `createdAt` (`orderBy: { createdAt: "asc" }`). -/
def sortByCreated : List CommentRow → List CommentRow
  | [] => []
  | c :: rest => insertByCreated c (sortByCreated rest)

/-- `getCommentsByPost` from commentController.js: fetch the post's
comments ordered by creation time ascending, then rebuild the forest. -/
def getCommentsByPost (s : Store) (postId : Nat) : List CTree :=
  buildForest (sortByCreated (s.comments.filter fun c => c.postId == postId))

/-- Membership of a comment row somewhere in a tree. -/
inductive MemTree (c : CommentRow) : CTree → Prop where
  | here (replies : List CTree) : MemTree c (.node c replies)
  | there (r : CommentRow) (replies : List CTree) (t : CTree) :
      t ∈ replies → MemTree c t → MemTree c (.node r replies)

/-- Membership of a comment row somewhere in a forest. -/
def MemForest (c : CommentRow) (forest : List CTree) : Prop :=
  ∃ t ∈ forest, MemTree c t

/-- The root row of a built tree is the comment it was built from. -/
theorem rowOf_buildTree (l : List CommentRow) (fuel : Nat) (c : CommentRow) :
    (buildTree l fuel c).rowOf = c := by
  cases fuel <;> rfl

/-- Every row in a tree built from a fetched row either is that row or has
a parent pointer into the fetched ids. -/
theorem memTree_buildTree (l : List CommentRow) :
    ∀ (fuel : Nat) (r c : CommentRow), r ∈ l →
      MemTree c (buildTree l fuel r) →
      c = r ∨ ∃ i ∈ l.map fun d => d.id, c.parentId = some i := by
  intro fuel
  induction fuel with
  | zero =>
    intro r c hr h
    cases h with
    | here _ => exact Or.inl rfl
    | there _ _ t ht _ => cases ht
  | succ n ih =>
    intro r c hr h
    cases h with
    | here _ => exact Or.inl rfl
    | there _ _ t ht hmem =>
      obtain ⟨d, hd, rfl⟩ := List.mem_map.mp ht
      have hdl : d ∈ l := List.mem_of_mem_filter hd
      rcases ih d c hdl hmem with h | h
      · subst h
        refine Or.inr ⟨r.id, List.mem_map.mpr ⟨r, hr, rfl⟩, ?_⟩
        have := List.of_mem_filter hd
        simpa using this
      · exact Or.inr h

/-- The roots of the rendered forest are exactly the fetched comments with
a null `parentId`, in order. -/
theorem buildForest_roots (l : List CommentRow) :
    (buildForest l).map CTree.rowOf = l.filter fun c => c.parentId == none := by
  unfold buildForest
  rw [List.map_map]
  have h : CTree.rowOf ∘ buildTree l l.length = id := by
    funext r
    exact rowOf_buildTree l l.length r
  rw [h, List.map_id]

/-- Comment row with id 1 and no parent, on post 1. -/
def c5c1 : CommentRow := ⟨1, 1, 1, "a", none, 0⟩

/-- Comment row with id 2 on post 1 whose parent id 99 is not fetched. -/
def c5c2 : CommentRow := ⟨2, 1, 1, "b", some 99, 1⟩

/-- Store with one root comment and one orphan comment on post 1. -/
def c5store : Store :=
  { users := [c2user], posts := [c2post1], tags := [], postTags := [],
    likes := [], comments := [c5c1, c5c2] }

/-- C5, counterexample: comment 2's parent (id 99) is missing from the
fetched set, yet `getCommentsByPost` returns only the tree of comment 1 —
comment 2 is not a root and appears nowhere in the forest, contradicting
the claim that parent-missing comments become roots and that no comment is
silently dropped. -/
theorem comment_orphan_not_a_root :
    c5c2.parentId = some 99 ∧
    (99 ∈ c5store.comments.map (fun c => c.id) → False) ∧
    c5c2 ∈ c5store.comments ∧
    getCommentsByPost c5store 1 = [CTree.node c5c1 []] ∧
    (getCommentsByPost c5store 1).map CTree.rowOf = [c5c1] ∧
    ¬ MemForest c5c2 (getCommentsByPost c5store 1) := by
  refine ⟨rfl, by decide, by decide, rfl, rfl, ?_⟩
  intro hmem
  obtain ⟨t, ht, hmt⟩ := hmem
  have hforest : getCommentsByPost c5store 1 = [CTree.node c5c1 []] := rfl
  rw [hforest, List.mem_singleton] at ht
  subst ht
  cases hmt with
  | there _ _ t ht _ => cases ht

/-- C5 (amended): the forest is built from the post's comments ordered by
creation time ascending; the roots are exactly the comments with null
`parentId`, children are grouped under the comment whose id equals their
`parentId` (nested recursively to arbitrary depth), and a comment whose
`parentId` refers to an id missing from the fetched set is silently
dropped — it appears nowhere in the returned forest, neither as a root nor
as a reply. -/
theorem claim_C5_comment_forest (s : Store) (postId : Nat) :
    ((getCommentsByPost s postId).map CTree.rowOf =
      (sortByCreated (s.comments.filter fun c => c.postId == postId)).filter
        fun c => c.parentId == none) ∧
    (∀ c ∈ sortByCreated (s.comments.filter fun c => c.postId == postId),
      ∀ p : Nat, c.parentId = some p →
      p ∉ (sortByCreated (s.comments.filter fun c => c.postId == postId)).map
          (fun d => d.id) →
      ¬ MemForest c (getCommentsByPost s postId)) := by
  constructor
  · exact buildForest_roots _
  · intro c hc p hp hnotin hmem
    obtain ⟨t, ht, hmt⟩ := hmem
    unfold getCommentsByPost buildForest at ht
    obtain ⟨r, hr, rfl⟩ := List.mem_map.mp ht
    have hrmem : r ∈ sortByCreated (s.comments.filter fun c => c.postId == postId) :=
      List.mem_of_mem_filter hr
    rcases memTree_buildTree _ _ r c hrmem hmt with h | h
    · subst h
      have := List.of_mem_filter hr
      rw [hp] at this
      cases this
    · obtain ⟨i, hi, hpi⟩ := h
      rw [hp] at hpi
      injection hpi with hip
      exact hnotin (hip ▸ hi)

/-- C5 witness: the amended forest theorem on the concrete store with the
orphan comment 2, instantiating both conjuncts. -/
theorem claim_C5_comment_forest_witness :
    ((getCommentsByPost c5store 1).map CTree.rowOf =
      (sortByCreated (c5store.comments.filter fun c => c.postId == 1)).filter
        fun c => c.parentId == none) ∧
    ¬ MemForest c5c2 (getCommentsByPost c5store 1) :=
  ⟨(claim_C5_comment_forest c5store 1).1,
   (claim_C5_comment_forest c5store 1).2 c5c2 (by decide) 99 rfl (by decide)⟩

/-- The spec's worked example: comments 1 (root), 2 and 3 (children of 1),
4 (child of 2). -/
def c5exStore : Store :=
  { users := [c2user], posts := [c2post1], tags := [], postTags := [],
    likes := [],
    comments := [⟨1, 1, 1, "r", none, 0⟩, ⟨2, 1, 1, "a", some 1, 1⟩,
                 ⟨3, 1, 1, "b", some 1, 2⟩, ⟨4, 1, 1, "c", some 2, 3⟩] }

/-- On the spec's example the listing nests beyond one level: root 1 has
replies 2 and 3, and comment 4 is nested under comment 2. -/
theorem comment_forest_nests_beyond_one_level :
    getCommentsByPost c5exStore 1 =
      [CTree.node ⟨1, 1, 1, "r", none, 0⟩
        [CTree.node ⟨2, 1, 1, "a", some 1, 1⟩
          [CTree.node ⟨4, 1, 1, "c", some 2, 3⟩ []],
         CTree.node ⟨3, 1, 1, "b", some 1, 2⟩ []]] := rfl

/-! ## incrementView (blogPostController.js, second iteration, lines 676-719)

```js
const param = req.params.id;
if (!param) return res.status(400).json({ message: "Missing post id or slug in URL" });
let post = null;
try { post = await prisma.blogPost.findUnique({ where: { id: param } }); }
catch (e) { post = null; }
if (!post) post = await prisma.blogPost.findUnique({ where: { slug: param } });
if (!post) return res.status(404).json({ message: "Post not found for id or slug", lookedUp: param });
const updated = await prisma.blogPost.update({
  where: { id: post.id }, data: { views: { increment: 1 } },
});
return res.json({ message: "View incremented", views: updated.views });
```
The route parameter is a string matched against the id column first, then
against the slug column. -/

/-- Responses `incrementView` can produce. -/
inductive ViewResult where
  | badRequest
  | notFound
  | incremented (views : Nat)
deriving Repr, DecidableEq

/-- Resolve the route parameter: by primary id first, by slug second. -/
def resolvePost (s : Store) (param : String) : Option BlogPost :=
  match s.posts.find? fun p => toString p.id == param with
  | some p => some p
  | none => s.posts.find? fun p => p.slug == param

/-- `incrementView` from blogPostController.js (second iteration). -/
def incrementView (s : Store) (param : String) : ViewResult × Store :=
  if param == "" then (ViewResult.badRequest, s)
  else
    match resolvePost s param with
    | none => (ViewResult.notFound, s)
    | some p =>
      (ViewResult.incremented (p.views + 1),
        { s with posts := s.posts.map fun q =>
            if q.id == p.id then { q with views := q.views + 1 } else q })

/-- Looking the bumped post up in the bumped table finds it with `views`
incremented, when post ids are pairwise distinct. -/
theorem find_in_bumped (l : List BlogPost) (p : BlogPost) (pid : Nat) :
    ∀ (hids : (l.map fun q => q.id).Nodup) (hp : p ∈ l) (hpid : p.id = pid),
    ((l.map fun q => if q.id == pid then { q with views := q.views + 1 } else q).find?
      fun q => q.id == pid) = some { p with views := p.views + 1 } := by
  induction l with
  | nil => intro _ hp _; cases hp
  | cons a l ih =>
    intro hids hp hpid
    simp only [List.map_cons, List.nodup_cons] at hids
    rcases List.mem_cons.mp hp with h | h
    · subst h
      have hbeq : (p.id == pid) = true := by simp [hpid]
      simp only [List.map_cons, hbeq, if_true, List.find?_cons]
    · have hane : (a.id == pid) = false := by
        have hmem : p.id ∈ l.map fun q => q.id := List.mem_map.mpr ⟨p, h, rfl⟩
        have : a.id ≠ pid := fun he => hids.1 ((he.trans hpid.symm) ▸ hmem)
        simp [this]
      simp only [List.map_cons, hane, Bool.false_eq_true, if_false,
        List.find?_cons]
      exact ih hids.2 h hpid

/-- C6: `incrementView` resolves the parameter as a post id first, falling
back to a slug lookup; when a post is found its `views` counter is
incremented by one (the updated row is returned and every other post row
is untouched), and when neither lookup resolves it answers NotFound with
the store completely unchanged — never a silent no-op. -/
theorem claim_C6_increment_view (s : Store) (param : String)
    (hparam : param ≠ "")
    (hids : (s.posts.map fun p => p.id).Nodup) :
    (∀ p, (s.posts.find? fun q => toString q.id == param) = some p →
      resolvePost s param = some p) ∧
    ((s.posts.find? fun q => toString q.id == param) = none →
      resolvePost s param = (s.posts.find? fun q => q.slug == param)) ∧
    (∀ p, resolvePost s param = some p →
      p ∈ s.posts ∧
      (incrementView s param).1 = ViewResult.incremented (p.views + 1) ∧
      findPostById (incrementView s param).2 p.id =
        some { p with views := p.views + 1 } ∧
      (∀ q ∈ s.posts, q.id ≠ p.id → q ∈ (incrementView s param).2.posts) ∧
      (incrementView s param).2.users = s.users ∧
      (incrementView s param).2.likes = s.likes ∧
      (incrementView s param).2.comments = s.comments) ∧
    (resolvePost s param = none →
      incrementView s param = (ViewResult.notFound, s)) := by
  have hpbeq : (param == "") = false := by simp [hparam]
  refine ⟨?_, ?_, ?_, ?_⟩
  · intro p hfind
    unfold resolvePost
    rw [hfind]
  · intro hfind
    unfold resolvePost
    rw [hfind]
  · intro p hres
    have hmem : p ∈ s.posts := by
      unfold resolvePost at hres
      cases hfind : s.posts.find? fun q => toString q.id == param with
      | some q =>
        rw [hfind] at hres
        injection hres with h
        exact h ▸ List.mem_of_find?_eq_some hfind
      | none =>
        rw [hfind] at hres
        exact List.mem_of_find?_eq_some hres
    have hinc : incrementView s param =
        (ViewResult.incremented (p.views + 1),
          { s with posts := s.posts.map fun q =>
              if q.id == p.id then { q with views := q.views + 1 } else q }) := by
      unfold incrementView
      rw [hpbeq, hres]
      rfl
    rw [hinc]
    refine ⟨hmem, rfl, ?_, ?_, rfl, rfl, rfl⟩
    · exact find_in_bumped s.posts p p.id hids hmem rfl
    · intro q hq hne
      refine List.mem_map.mpr ⟨q, hq, ?_⟩
      have : (q.id == p.id) = false := by simp [hne]
      simp [this]
  · intro hres
    unfold incrementView
    rw [hpbeq, hres]
    rfl

/-- Post 1 ("alpha", 3 views) for the concrete view-increment run. -/
def c6p1 : BlogPost :=
  { id := 1, title := "A", slug := "alpha", content := "x", isDraft := false,
    generatedByAI := false, views := 3, likesCount := 0, authorId := 1,
    updatedAt := 0 }

/-- Post 2 ("beta", 7 views) for the concrete view-increment run. -/
def c6p2 : BlogPost :=
  { id := 2, title := "B", slug := "beta", content := "y", isDraft := false,
    generatedByAI := false, views := 7, likesCount := 0, authorId := 1,
    updatedAt := 0 }

/-- Store for the concrete view-increment run. -/
def c6store : Store :=
  { users := [c2user], posts := [c6p1, c6p2], tags := [], postTags := [],
    likes := [], comments := [] }

/-- C6 witness: the view-increment theorem on the concrete store, for the
slug-resolved parameter "alpha" and the unresolvable parameter "zzz". -/
theorem claim_C6_increment_view_witness :
    (incrementView c6store "alpha").1 = ViewResult.incremented 4 ∧
    findPostById (incrementView c6store "alpha").2 1 =
      some { c6p1 with views := 4 } ∧
    c6p2 ∈ (incrementView c6store "alpha").2.posts ∧
    incrementView c6store "zzz" = (ViewResult.notFound, c6store) := by
  have h := (claim_C6_increment_view c6store "alpha" (by decide)
    (by decide)).2.2.1 c6p1 (by decide)
  have h2 := (claim_C6_increment_view c6store "zzz" (by decide)
    (by decide)).2.2.2 (by decide)
  exact ⟨h.2.1, h.2.2.1, h.2.2.2.1 c6p2 (by decide) (by decide), h2⟩

/-! ## registerUser / loginUser (authController.js, lines 13-94)

`registerUser` validates, rejects a duplicate email, hashes the password
(bcrypt), grants the `admin` role only when the supplied token equals the
server secret, creates the user, and then awaits three agenda submissions
(`agenda.now`, `agenda.schedule`, `agenda.every`) *inside the same try
block*: if a submission throws, the outer catch answers 500 — after the
user row has already been persisted, with no rollback.  `loginUser`
likewise awaits `agenda.now("send-login-email", ...)` between the
credential check and the success response, so a submission failure turns a
valid login into a 500.  Only `createPost` (second iteration) wraps its
submission in an inner try/catch that logs and swallows the error. -/

/-- Responses `registerUser` can produce. -/
inductive RegisterResult where
  | badRequest
  | conflict
  | created (userId : Nat)
  | serverError
deriving Repr, DecidableEq

/-- Fresh primary key for an inserted user. -/
def freshUserId (s : Store) : Nat :=
  (s.users.map fun u => u.id).foldr max 0 + 1

/-- `registerUser` from authController.js.  `hash` is bcrypt, `secret` is
`process.env.ADMIN_ACCESS_TOKEN`, `notify` records whether one of the
agenda submissions threw. -/
def registerUser (s : Store) (name email password : String)
    (profileImageUrl bio : String) (adminAccessToken : Option String)
    (secret : String) (hash : String → String) (notify : NotifyOutcome) :
    RegisterResult × Store :=
  if name == "" || email == "" || password == "" then
    (RegisterResult.badRequest, s)
  else
    match s.users.find? fun u => u.email == email with
    | some _ => (RegisterResult.conflict, s)
    | none =>
      let role := if adminAccessToken == some secret then "admin" else "member"
      let u : User :=
        { id := freshUserId s, name, email, password := hash password,
          profileImageUrl, bio, role }
      let s' : Store := { s with users := s.users ++ [u] }
      match notify with
      | .ok => (RegisterResult.created u.id, s')
      | .fail => (RegisterResult.serverError, s')  -- caught by the outer catch: 500, user kept

/-- Responses `loginUser` can produce. -/
inductive LoginResult where
  | badRequest
  | unauthorized
  | ok (userId : Nat)
  | serverError
deriving Repr, DecidableEq

/-- `loginUser` from authController.js.  `bcrypt.compare(password, u.password)`
is embedded as equality of `u.password` with `hash password`. -/
def loginUser (s : Store) (email password : String) (hash : String → String)
    (notify : NotifyOutcome) : LoginResult × Store :=
  if email == "" || password == "" then (LoginResult.badRequest, s)
  else
    match s.users.find? fun u => u.email == email with
    | none => (LoginResult.unauthorized, s)
    | some u =>
      if u.password == hash password then
        match notify with
        | .ok => (LoginResult.ok u.id, s)
        | .fail => (LoginResult.serverError, s)  -- agenda.now threw: 500 despite valid credentials
      else (LoginResult.unauthorized, s)

/-- A deterministic stand-in for the bcrypt hash in concrete runs. -/
def c7hash : String → String := fun p => "hashed-" ++ p

/-- Store with no users, for the concrete registration run. -/
def c7store0 : Store :=
  { users := [], posts := [], tags := [], postTags := [], likes := [],
    comments := [] }

/-- C7, counterexample: on a fresh store, `registerUser` whose agenda
submission throws answers a 500 server error — the primary operation is
turned into a failure — even though the user row was persisted. -/
theorem register_notify_failure_fails_request :
    (registerUser c7store0 "n" "n@example.com" "pw" "" "" none "secret"
      c7hash .fail).1 = RegisterResult.serverError ∧
    ((registerUser c7store0 "n" "n@example.com" "pw" "" "" none "secret"
      c7hash .fail).2.users.any fun u => u.email == "n@example.com") = true := by
  exact ⟨rfl, rfl⟩

/-- C7 (amended): a notification/job-submission failure is swallowed by
`createPost` — response and store are identical to the success case — but
in `registerUser` and `loginUser` the submissions are awaited inside the
main try block, so a submission failure makes those operations answer a
server error: the freshly created user is still persisted (register), and
valid credentials still yield a 500 instead of the token response (login). -/
theorem claim_C7_notify_failures (s : Store) (authorId : Nat)
    (title content : String) (tags : List String) (d g : Bool) (now : Nat)
    (name email password pimg bio : String) (adminTok : Option String)
    (secret : String) (hash : String → String) :
    (createPost s authorId title content tags d g now .fail =
      createPost s authorId title content tags d g now .ok) ∧
    ((name == "" || email == "" || password == "") = false →
      (s.users.find? fun u => u.email == email) = none →
      (registerUser s name email password pimg bio adminTok secret hash .fail).1
          = RegisterResult.serverError ∧
      (registerUser s name email password pimg bio adminTok secret hash .fail).2
          = (registerUser s name email password pimg bio adminTok secret hash .ok).2 ∧
      (((registerUser s name email password pimg bio adminTok secret hash .fail).2.users.any
          fun u => u.email == email) = true)) ∧
    (∀ u : User, (email == "" || password == "") = false →
      (s.users.find? fun v => v.email == email) = some u →
      (u.password == hash password) = true →
      loginUser s email password hash .fail = (LoginResult.serverError, s) ∧
      loginUser s email password hash .ok = (LoginResult.ok u.id, s)) := by
  refine ⟨?_, ?_, ?_⟩
  · rfl
  · intro hval hfind
    unfold registerUser
    rw [hval, hfind]
    refine ⟨rfl, rfl, ?_⟩
    simp
  · intro u hval hfind hpw
    unfold loginUser
    rw [hval, hfind]
    simp only [Bool.false_eq_true, if_false, hpw, if_true]
    exact ⟨trivial, trivial⟩

/-- User on record for the concrete login run (password already hashed). -/
def c7loginUser : User :=
  { id := 1, name := "n", email := "n@example.com", password := "hashed-pw",
    profileImageUrl := "", bio := "", role := "member" }

/-- Store for the concrete login run. -/
def c7loginStore : Store :=
  { users := [c7loginUser], posts := [], tags := [], postTags := [],
    likes := [], comments := [] }

/-- C7 witness: the notification-failure theorem on a concrete create,
registration and login. -/
theorem claim_C7_notify_failures_witness :
    (createPost c7store0 1 "T" "c" [] false false 0 .fail =
      createPost c7store0 1 "T" "c" [] false false 0 .ok) ∧
    (registerUser c7store0 "n" "n@example.com" "pw" "" "" none "secret"
      c7hash .fail).1 = RegisterResult.serverError ∧
    loginUser c7loginStore "n@example.com" "pw" c7hash .fail
      = (LoginResult.serverError, c7loginStore) := by
  have h := claim_C7_notify_failures c7store0 1 "T" "c" [] false false 0
    "n" "n@example.com" "pw" "" "" none "secret" c7hash
  have h2 := claim_C7_notify_failures c7loginStore 1 "T" "c" [] false false 0
    "n" "n@example.com" "pw" "" "" none "secret" c7hash
  exact ⟨h.1, (h.2.1 (by decide) (by decide)).1,
    (h2.2.2 c7loginUser (by decide) (by decide) (by decide)).1⟩

/-! ## getPostsByTag (blogPostController.js, second iteration, lines 777-808)

```js
const tag = await prisma.tag.findUnique({ where: { name: tagName } });
if (!tag) return res.json([]);
const postTags = await prisma.postTag.findMany({
  where: { tagId: tag.id }, include: { post: { include: { ... } } },
});
const posts = postTags
  .map((pt) => pt.post)
  .filter(Boolean)
  .reduce((acc, p) => { if (!acc.find((x) => x.id === p.id)) acc.push(p); return acc; }, [])
  .map(mapPostResponse);
```
Note: unlike the first iteration of this controller, this query carries no
`isDraft: false` filter — draft posts associated with the tag are returned
too.  The reduce de-duplicates by post id, keeping first occurrences. -/

/-- The de-duplicating reduce of `getPostsByTag` (keeps first occurrence
of each post id; `acc` is the accumulator). -/
def dedupById : List BlogPost → List BlogPost → List BlogPost
  | acc, [] => acc
  | acc, p :: rest =>
    if acc.any fun x => x.id == p.id then dedupById acc rest
    else dedupById (acc ++ [p]) rest

/-- `getPostsByTag` from blogPostController.js (second iteration). -/
def getPostsByTag (s : Store) (tagName : String) : List BlogPost :=
  match s.tags.find? fun t => t.name == tagName with
  | none => []
  | some tag =>
    let pts := s.postTags.filter fun pt => pt.tagId == tag.id
    let posts := pts.filterMap fun pt => s.posts.find? fun p => p.id == pt.postId
    dedupById [] posts

/-- Whatever `dedupById` returns came from the accumulator or the input. -/
theorem mem_dedupById (l : List BlogPost) :
    ∀ (acc : List BlogPost) (p : BlogPost),
      p ∈ dedupById acc l → p ∈ acc ∨ p ∈ l := by
  induction l with
  | nil => intro acc p h; exact Or.inl h
  | cons q rest ih =>
    intro acc p h
    unfold dedupById at h
    by_cases hq : (acc.any fun x => x.id == q.id) = true
    · rw [if_pos hq] at h
      rcases ih acc p h with h' | h'
      · exact Or.inl h'
      · exact Or.inr (List.mem_cons_of_mem q h')
    · rw [if_neg hq] at h
      rcases ih (acc ++ [q]) p h with h' | h'
      · rcases List.mem_append.mp h' with h'' | h''
        · exact Or.inl h''
        · exact Or.inr (List.mem_singleton.mp h'' ▸ List.mem_cons_self q rest)
      · exact Or.inr (List.mem_cons_of_mem q h')

/-- Every id of the accumulator or the input survives `dedupById`. -/
theorem mem_ids_dedupById (l : List BlogPost) :
    ∀ (acc : List BlogPost) (i : Nat),
      (i ∈ acc.map fun p => p.id) ∨ (i ∈ l.map fun p => p.id) →
      i ∈ (dedupById acc l).map fun p => p.id := by
  induction l with
  | nil =>
    intro acc i h
    rcases h with h | h
    · exact h
    · cases h
  | cons q rest ih =>
    intro acc i h
    unfold dedupById
    by_cases hq : (acc.any fun x => x.id == q.id) = true
    · rw [if_pos hq]
      rcases h with h | h
      · exact ih acc i (Or.inl h)
      · rcases List.mem_map.mp h with ⟨p, hp, rfl⟩
        rcases List.mem_cons.mp hp with h' | h'
        · subst h'
          obtain ⟨x, hx, hxi⟩ := List.any_eq_true.mp hq
          have : x.id = p.id := by simpa using hxi
          exact ih acc p.id (Or.inl (this ▸ List.mem_map.mpr ⟨x, hx, rfl⟩))
        · exact ih acc p.id (Or.inr (List.mem_map.mpr ⟨p, h', rfl⟩))
    · rw [if_neg hq]
      rcases h with h | h
      · exact ih (acc ++ [q]) i (Or.inl (by
          rw [List.map_append]
          exact List.mem_append_left _ h))
      · rcases List.mem_map.mp h with ⟨p, hp, rfl⟩
        rcases List.mem_cons.mp hp with h' | h'
        · subst h'
          exact ih (acc ++ [p]) p.id (Or.inl (by
            rw [List.map_append]
            exact List.mem_append_right _ (by simp)))
        · exact ih (acc ++ [q]) p.id (Or.inr (List.mem_map.mpr ⟨p, h', rfl⟩))

/-- `dedupById` keeps the accumulated ids pairwise distinct. -/
theorem nodup_ids_dedupById (l : List BlogPost) :
    ∀ acc : List BlogPost, ((acc.map fun p => p.id).Nodup) →
      (((dedupById acc l).map fun p => p.id).Nodup) := by
  induction l with
  | nil => intro acc h; exact h
  | cons q rest ih =>
    intro acc h
    unfold dedupById
    by_cases hq : (acc.any fun x => x.id == q.id) = true
    · rw [if_pos hq]
      exact ih acc h
    · rw [if_neg hq]
      refine ih (acc ++ [q]) ?_
      rw [List.map_append, List.nodup_append]
      refine ⟨h, by simp, ?_⟩
      intro i hi
      simp only [List.map_cons, List.map_nil, List.mem_singleton]
      intro hiq
      apply hq
      obtain ⟨p, hp, rfl⟩ := List.mem_map.mp hi
      exact List.any_eq_true.mpr ⟨p, hp, by simp [hiq]⟩

/-- A draft post, tagged "t", for the concrete by-tag run. -/
def c8draft : BlogPost :=
  { id := 1, title := "D", slug := "d", content := "x", isDraft := true,
    generatedByAI := false, views := 0, likesCount := 0, authorId := 1,
    updatedAt := 0 }

/-- Store in which the only post carrying tag "t" is a draft. -/
def c8store : Store :=
  { users := [c2user], posts := [c8draft], tags := [⟨1, "t"⟩],
    postTags := [⟨1, 1⟩], likes := [], comments := [] }

/-- C8, counterexample: `getPostsByTag` returns the draft post associated
with the tag — the second iteration of the controller carries no
`isDraft: false` filter, so the claim's draft exclusion fails. -/
theorem posts_by_tag_includes_drafts :
    getPostsByTag c8store "t" = [c8draft] ∧ c8draft.isDraft = true :=
  ⟨rfl, rfl⟩

/-- C8 (amended): `byTag(tagName)` returns exactly the posts associated
with the tag — drafts included — each appearing at most once: the result
ids are pairwise distinct, every returned post is a stored post linked to
the tag by a join row, and every stored post linked to the tag is
represented in the result by its id. -/
theorem claim_C8_posts_by_tag (s : Store) (tagName : String) :
    (((getPostsByTag s tagName).map fun p => p.id).Nodup) ∧
    (∀ p ∈ getPostsByTag s tagName,
      p ∈ s.posts ∧
      ∃ t, (s.tags.find? fun t' => t'.name == tagName) = some t ∧
        ∃ pt ∈ s.postTags, pt.tagId = t.id ∧ pt.postId = p.id) ∧
    (∀ t, (s.tags.find? fun t' => t'.name == tagName) = some t →
      ∀ q ∈ s.posts, ∀ pt ∈ s.postTags, pt.tagId = t.id → pt.postId = q.id →
      q.id ∈ (getPostsByTag s tagName).map fun p => p.id) := by
  refine ⟨?_, ?_, ?_⟩
  · unfold getPostsByTag
    cases hf : s.tags.find? fun t => t.name == tagName with
    | none => simp
    | some tag => exact nodup_ids_dedupById _ [] (by simp)
  · intro p hp
    unfold getPostsByTag at hp
    cases hf : s.tags.find? fun t => t.name == tagName with
    | none => rw [hf] at hp; cases hp
    | some tag =>
      rw [hf] at hp
      rcases mem_dedupById _ [] p hp with h | h
      · cases h
      · obtain ⟨pt, hpt, hfind⟩ := List.mem_filterMap.mp h
        have hptmem : pt ∈ s.postTags := List.mem_of_mem_filter hpt
        have hpttag : pt.tagId = tag.id := by
          have := List.of_mem_filter hpt
          simpa using this
        have hpmem : p ∈ s.posts := List.mem_of_find?_eq_some hfind
        have hpid : p.id = pt.postId := by
          have := List.find?_some hfind
          simpa using this
        exact ⟨hpmem, tag, rfl, pt, hptmem, hpttag, hpid.symm⟩
  · intro t ht q hq pt hpt htag hpostid
    unfold getPostsByTag
    rw [ht]
    have hfindsome : ((s.posts.find? fun p => p.id == pt.postId).isSome) := by
      rw [List.find?_isSome]
      exact ⟨q, hq, by simp [hpostid]⟩
    obtain ⟨r, hr⟩ := Option.isSome_iff_exists.mp hfindsome
    have hrid : r.id = pt.postId := by
      have := List.find?_some hr
      simpa using this
    have hrmem : r ∈ (s.postTags.filter fun pt' => pt'.tagId == t.id).filterMap
        fun pt' => s.posts.find? fun p => p.id == pt'.postId := by
      refine List.mem_filterMap.mpr ⟨pt, ?_, hr⟩
      exact List.mem_filter.mpr ⟨hpt, by simp [htag]⟩
    have hmem := mem_ids_dedupById _ [] r.id
      (Or.inr (List.mem_map.mpr ⟨r, hrmem, rfl⟩))
    rw [hrid, hpostid] at hmem
    exact hmem

/-- C8 witness: the amended by-tag theorem on the concrete store with the
tagged draft post. -/
theorem claim_C8_posts_by_tag_witness :
    (((getPostsByTag c8store "t").map fun p => p.id).Nodup) ∧
    c8draft ∈ c8store.posts ∧
    c8draft.id ∈ (getPostsByTag c8store "t").map fun p => p.id := by
  have h := claim_C8_posts_by_tag c8store "t"
  refine ⟨h.1, (h.2.1 c8draft (by decide)).1, ?_⟩
  exact h.2.2 ⟨1, "t"⟩ (by decide) c8draft (by decide) ⟨1, 1⟩ (by decide)
    (by decide) (by decide)

/-! ## getAllPosts (blogPostController.js, second iteration, lines 599-643)

```js
const status = req.query.status || "published";
const page = parseInt(req.query.page || "1", 10);
const limit = parseInt(req.query.limit || "5", 10);
const skip = (page - 1) * limit;
const where = status === "draft" ? { isDraft: true }
  : status === "published" ? { isDraft: false } : {};
const [postsRaw, totalCount, allCount, publishedCount, draftCount] = await Promise.all([
  prisma.blogPost.findMany({ where, orderBy: { updatedAt: "desc" }, skip, take: limit, ... }),
  prisma.blogPost.count({ where }),
  prisma.blogPost.count(),
  prisma.blogPost.count({ where: { isDraft: false } }),
  prisma.blogPost.count({ where: { isDraft: true } }),
]);
return res.json({ posts, page, totalPages: Math.ceil(totalCount / limit), totalCount, counts: ... });
```
The handler always answers 200 with this shape (no error path short of a
store failure), so the embedding returns the page record directly. -/

/-- The `where` filter generated from the `status` query parameter. -/
def statusWhere (status : String) (p : BlogPost) : Bool :=
  if status == "draft" then p.isDraft
  else if status == "published" then !p.isDraft
  else true

/-- Stable insertion into a list sorted descending by `updatedAt`. -/
def insertByUpdated (p : BlogPost) : List BlogPost → List BlogPost
  | [] => [p]
  | q :: rest =>
    if q.updatedAt < p.updatedAt then p :: q :: rest
    else q :: insertByUpdated p rest

/-- Stable sort descending by `updatedAt` (`orderBy: { updatedAt: "desc" }`). -/
def sortByUpdatedDesc : List BlogPost → List BlogPost
  | [] => []
  | p :: rest => insertByUpdated p (sortByUpdatedDesc rest)

/-- `Math.ceil(a / b)` on naturals. -/
def ceilDiv (a b : Nat) : Nat := (a + b - 1) / b

/-- The JSON body `getAllPosts` answers with. -/
structure PostsPage where
  posts : List BlogPost
  page : Nat
  totalPages : Nat
  totalCount : Nat
  countAll : Nat
  countPublished : Nat
  countDraft : Nat
deriving Repr, DecidableEq

/-- `getAllPosts` from blogPostController.js (second iteration). -/
def getAllPosts (s : Store) (status : String) (page limit : Nat) : PostsPage :=
  let skip := (page - 1) * limit
  let filtered := s.posts.filter (statusWhere status)
  let sorted := sortByUpdatedDesc filtered
  { posts := (sorted.drop skip).take limit
    page := page
    totalPages := ceilDiv filtered.length limit
    totalCount := filtered.length
    countAll := s.posts.length
    countPublished := (s.posts.filter fun p => !p.isDraft).length
    countDraft := (s.posts.filter fun p => p.isDraft).length }

/-- Insertion grows the length by one. -/
theorem length_insertByUpdated (p : BlogPost) (l : List BlogPost) :
    (insertByUpdated p l).length = l.length + 1 := by
  induction l with
  | nil => rfl
  | cons q rest ih =>
    unfold insertByUpdated
    by_cases h : q.updatedAt < p.updatedAt
    · simp [h]
    · simp [h, ih]

/-- Sorting preserves the length. -/
theorem length_sortByUpdatedDesc (l : List BlogPost) :
    (sortByUpdatedDesc l).length = l.length := by
  induction l with
  | nil => rfl
  | cons p rest ih =>
    unfold sortByUpdatedDesc
    rw [length_insertByUpdated, ih]
    rfl

/-- `ceilDiv a b * b` covers `a` whenever `b ≥ 1`. -/
theorem le_ceilDiv_mul (a b : Nat) (hb : 1 ≤ b) : a ≤ ceilDiv a b * b := by
  unfold ceilDiv
  rw [Nat.mul_comm]
  have hdm := Nat.div_add_mod (a + b - 1) b
  have hlt : (a + b - 1) % b < b := Nat.mod_lt _ hb
  omega

/-- C9: `getAllPosts` reports `totalPages = ceil(totalCount / pageSize)`
where `totalCount` counts the posts matching the status filter, and a page
beyond `totalPages` yields the same successful page record with an empty
posts list — not an error. -/
theorem claim_C9_pagination (s : Store) (status : String) (page limit : Nat)
    (hpage : 1 ≤ page) (hlimit : 1 ≤ limit) :
    (getAllPosts s status page limit).totalPages =
      ceilDiv (s.posts.filter (statusWhere status)).length limit ∧
    (getAllPosts s status page limit).totalCount =
      (s.posts.filter (statusWhere status)).length ∧
    (page > (getAllPosts s status page limit).totalPages →
      (getAllPosts s status page limit).posts = []) := by
  refine ⟨rfl, rfl, ?_⟩
  intro hbeyond
  show (((sortByUpdatedDesc (s.posts.filter (statusWhere status))).drop
    ((page - 1) * limit)).take limit) = []
  have hlen : (sortByUpdatedDesc (s.posts.filter (statusWhere status))).length ≤
      (page - 1) * limit := by
    rw [length_sortByUpdatedDesc]
    have htp : (getAllPosts s status page limit).totalPages =
        ceilDiv (s.posts.filter (statusWhere status)).length limit := rfl
    rw [htp] at hbeyond
    have h1 : ceilDiv (s.posts.filter (statusWhere status)).length limit ≤ page - 1 := by
      omega
    calc (s.posts.filter (statusWhere status)).length
        ≤ ceilDiv (s.posts.filter (statusWhere status)).length limit * limit :=
          le_ceilDiv_mul _ _ hlimit
      _ ≤ (page - 1) * limit := Nat.mul_le_mul_right _ h1
  rw [List.drop_eq_nil_of_le hlen, List.take_nil]

/-- Store with three published posts for the concrete pagination run. -/
def c9store : Store :=
  { users := [c2user],
    posts := [{ c6p1 with id := 1, updatedAt := 3 },
              { c6p1 with id := 2, updatedAt := 2 },
              { c6p1 with id := 3, updatedAt := 1 }],
    tags := [], postTags := [], likes := [], comments := [] }

/-- C9 witness: three published posts with page size 2 give 2 total pages,
and page 3 yields the empty list. -/
theorem claim_C9_pagination_witness :
    (getAllPosts c9store "published" 3 2).totalPages = 2 ∧
    (getAllPosts c9store "published" 3 2).totalCount = 3 ∧
    (getAllPosts c9store "published" 3 2).posts = [] := by
  have h := claim_C9_pagination c9store "published" 3 2 (by decide) (by decide)
  exact ⟨h.1, h.2.1, h.2.2 (by decide)⟩

/-! ## updateProfile (userController.js, lines 33-61)

```js
const userId = req.user.id;
const payload = { ...req.body };
if (payload.password) {
  payload.password = await bcrypt.hash(payload.password, 10);
} else {
  delete payload.password;
}
const updated = await prisma.user.update({ where: { id: userId }, data: payload, select: {...} });
res.json(updated);
```
Every field present in the body is written verbatim to the caller's row —
the `role` field included, with no allow-list and no role check — except
`password`, which is re-hashed when truthy and dropped when absent or
falsy (the empty string). -/

/-- The request body of `updateProfile`: each user column optionally
present. -/
structure ProfileBody where
  name : Option String := none
  email : Option String := none
  profileImageUrl : Option String := none
  bio : Option String := none
  role : Option String := none
  password : Option String := none
deriving Repr, DecidableEq

/-- Responses `updateProfile` can produce. -/
inductive ProfileResult where
  | ok
  | serverError
deriving Repr, DecidableEq

/-- The password the payload carries after the truthiness check: hashed
when present and non-empty, dropped otherwise. -/
def hashedPw (body : ProfileBody) (hash : String → String) : Option String :=
  match body.password with
  | some p => if p == "" then none else some (hash p)
  | none => none

/-- The row update `prisma.user.update` performs: fields present in the
payload overwrite the stored ones, absent fields stay. -/
def applyProfile (body : ProfileBody) (hash : String → String) (u : User) : User :=
  { u with
    name := body.name.getD u.name
    email := body.email.getD u.email
    profileImageUrl := body.profileImageUrl.getD u.profileImageUrl
    bio := body.bio.getD u.bio
    role := body.role.getD u.role
    password := (hashedPw body hash).getD u.password }

/-- `updateProfile` from userController.js. -/
def updateProfile (s : Store) (callerId : Nat) (body : ProfileBody)
    (hash : String → String) : ProfileResult × Store :=
  match s.users.find? fun u => u.id == callerId with
  | none => (ProfileResult.serverError, s)
  | some _ =>
    (ProfileResult.ok,
      { s with users := s.users.map fun u =>
          if u.id == callerId then applyProfile body hash u else u })

/-- Looking the updated user up in the mapped table finds the transformed
row, when user ids are pairwise distinct and the transform keeps the id. -/
theorem find_user_mapped (f : User → User) (hf : ∀ u, (f u).id = u.id)
    (l : List User) (u : User) (uid : Nat) :
    ∀ (hids : (l.map fun v => v.id).Nodup) (hu : u ∈ l) (huid : u.id = uid),
    ((l.map fun v => if v.id == uid then f v else v).find? fun v => v.id == uid)
      = some (f u) := by
  induction l with
  | nil => intro _ hu _; cases hu
  | cons a l ih =>
    intro hids hu huid
    simp only [List.map_cons, List.nodup_cons] at hids
    rcases List.mem_cons.mp hu with h | h
    · subst h
      have hbeq : (u.id == uid) = true := by simp [huid]
      have hbeq2 : ((f u).id == uid) = true := by simp [hf u, huid]
      simp only [List.map_cons, hbeq, if_true, List.find?_cons, hbeq2]
    · have hane : (a.id == uid) = false := by
        have hmem : u.id ∈ l.map fun v => v.id := List.mem_map.mpr ⟨u, h, rfl⟩
        have : a.id ≠ uid := fun he => hids.1 ((he.trans huid.symm) ▸ hmem)
        simp [this]
      simp only [List.map_cons, hane, Bool.false_eq_true, if_false,
        List.find?_cons]
      exact ih hids.2 h huid

/-- C10: `updateProfile` writes every supplied field verbatim to the
caller's row — including `role`, so an authenticated member can set their
own role to `admin` — leaves absent fields unchanged, and stores the hash
of a supplied (non-empty) password rather than the password itself. -/
theorem claim_C10_update_profile (s : Store) (callerId : Nat)
    (body : ProfileBody) (hash : String → String) (u : User)
    (hfind : (s.users.find? fun v => v.id == callerId) = some u)
    (hids : (s.users.map fun v => v.id).Nodup) :
    (updateProfile s callerId body hash).1 = ProfileResult.ok ∧
    ((updateProfile s callerId body hash).2.users.find?
        fun v => v.id == callerId) = some (applyProfile body hash u) ∧
    (∀ r, body.role = some r → (applyProfile body hash u).role = r) ∧
    (body.role = none → (applyProfile body hash u).role = u.role) ∧
    (body.name = none → (applyProfile body hash u).name = u.name) ∧
    (body.email = none → (applyProfile body hash u).email = u.email) ∧
    (body.bio = none → (applyProfile body hash u).bio = u.bio) ∧
    (∀ p, body.password = some p → (p == "") = false →
      (applyProfile body hash u).password = hash p) ∧
    (body.password = none →
      (applyProfile body hash u).password = u.password) := by
  have hupd : updateProfile s callerId body hash =
      (ProfileResult.ok,
        { s with users := s.users.map fun v =>
            if v.id == callerId then applyProfile body hash v else v }) := by
    unfold updateProfile
    rw [hfind]
  have humem : u ∈ s.users := List.mem_of_find?_eq_some hfind
  have huid : u.id = callerId := by
    have := List.find?_some hfind
    simpa using this
  refine ⟨by rw [hupd], ?_, ?_, ?_, ?_, ?_, ?_, ?_, ?_⟩
  · rw [hupd]
    exact find_user_mapped (applyProfile body hash) (fun _ => rfl)
      s.users u callerId hids humem huid
  · intro r hr; simp [applyProfile, hr]
  · intro hr; simp [applyProfile, hr]
  · intro hr; simp [applyProfile, hr]
  · intro hr; simp [applyProfile, hr]
  · intro hr; simp [applyProfile, hr]
  · intro p hp hpne; simp [applyProfile, hashedPw, hp, hpne]
  · intro hp; simp [applyProfile, hashedPw, hp]

/-- A member user for the concrete self-promotion run. -/
def c10member : User :=
  { id := 1, name := "m", email := "m@example.com", password := "hashed-old",
    profileImageUrl := "", bio := "", role := "member" }

/-- Store holding only the member. -/
def c10store : Store :=
  { users := [c10member], posts := [], tags := [], postTags := [], likes := [],
    comments := [] }

/-- Body that sets `role` to `admin` and a new password, nothing else. -/
def c10body : ProfileBody := { role := some "admin", password := some "npw" }

/-- C10 witness: the member self-promotes to admin and the new password is
stored hashed; name and email stay unchanged. -/
theorem claim_C10_update_profile_witness :
    (updateProfile c10store 1 c10body c7hash).1 = ProfileResult.ok ∧
    ((updateProfile c10store 1 c10body c7hash).2.users.find?
        fun v => v.id == 1) = some (applyProfile c10body c7hash c10member) ∧
    (applyProfile c10body c7hash c10member).role = "admin" ∧
    (applyProfile c10body c7hash c10member).password = c7hash "npw" ∧
    (applyProfile c10body c7hash c10member).name = c10member.name ∧
    (applyProfile c10body c7hash c10member).email = c10member.email := by
  have h := claim_C10_update_profile c10store 1 c10body c7hash c10member
    (by decide) (by decide)
  exact ⟨h.1, h.2.1, h.2.2.1 "admin" rfl, h.2.2.2.2.2.2.2.1 "npw" rfl (by decide),
    h.2.2.2.2.1 rfl, h.2.2.2.2.2.1 rfl⟩
